import Mathlib

/-!
# Verification of the gitlabform configuration core

Shallow embedding of `gitlabform/configuration/core.py` and
`gitlabform/configuration/projects.py` (and, where noted, a spec-modelled
stand-in for the absent `gitlabform/configuration/groups.py`), together with
proofs about the embedded operations.

A parsed YAML configuration tree is modelled by `Value`; Python `dict`s become
insertion-ordered association lists with unique keys (uniqueness is what the
YAML parser guarantees; none of the embedded code relies on it except where
noted).  Fallible Python code (exceptions) is modelled with `Except`.
-/

/-- A parsed YAML value: scalar (null / bool / int / string), sequence, or
string-keyed mapping.  Mappings are insertion-ordered association lists. -/
inductive Value where
  | null : Value
  | bool : Bool → Value
  | int : Int → Value
  | str : String → Value
  | seq : List Value → Value
  | map : List (String × Value) → Value

/-- Kinds of Python exception relevant to the embedded code: the library's own
`KeyNotFoundException`, and everything else (`TypeError`, `AttributeError`,
`ValueError`, ... — the embedded code never distinguishes among those). -/
inductive PyErr where
  | keyNotFound : PyErr
  | otherExc : PyErr
deriving DecidableEq

/-- Python `str.lower()` (ASCII case folding, as all configuration keys the
program compares are ASCII). -/
def lowerStr (s : String) : String := String.mk (s.toList.map Char.toLower)

/-- Python `str.split(sep)` for a one-character separator, on the character
list: `"" ↦ [""]`, `"a||b" ↦ ["a", "", "b"]`. -/
def splitOnChar (c : Char) : List Char → List (List Char)
  | [] => [[]]
  | x :: xs =>
    if x = c then [] :: splitOnChar c xs
    else
      match splitOnChar c xs with
      | [] => [[x]]
      | h :: t => (x :: h) :: t

/-- Python `sep.join(parts)` for a one-character separator. -/
def joinWithChar (c : Char) : List (List Char) → List Char
  | [] => []
  | [x] => x
  | x :: xs => x ++ c :: joinWithChar c xs

/-- `path.split("|")` from `ConfigurationCore.get`. -/
def pathTokens (path : String) : List String :=
  (splitOnChar '|' path.toList).map String.mk

/-- First binding of a key in a Python dict (keys are unique, so "first" is
"the" binding). -/
def lookupA (m : List (String × Value)) (k : String) : Option Value :=
  match m.find? (fun kv => kv.1 == k) with
  | some kv => some kv.2
  | none => none

/-- One step `current[token]` of the traversal loop in `ConfigurationCore.get`:
subscripting succeeds exactly on a mapping that has the key; on a missing key
(`KeyError`) or a non-mapping (`TypeError`) it fails, and the bare `except:` in
the source treats both failures alike. -/
def indexInto (current : Value) (token : String) : Option Value :=
  match current with
  | .map m => lookupA m token
  | _ => none

/-- The `for token in tokens: current = current[token]` loop of
`ConfigurationCore.get`. -/
def traverseTokens : Value → List String → Option Value
  | current, [] => some current
  | current, t :: ts =>
    match indexInto current t with
    | some v => traverseTokens v ts
    | none => none

/-- `ConfigurationCore.get(path, default=None)`: split `path` on `"|"`, descend
with the subscript loop; on any failure return `default` unless it is `None`
(`Value.null`), in which case raise `KeyNotFoundException`.  The Python default
argument value `None` is `Value.null`, so omitting `default` and passing
`Value.null` are the same call. -/
def ConfigurationCore.get (config : Value) (path : String)
    (default : Value := Value.null) : Except PyErr Value :=
  match traverseTokens config (pathTokens path) with
  | some current => .ok current
  | none =>
    match default with
    | .null => .error .keyNotFound
    | d => .ok d


/-- `ConfigurationCore.get_case_insensitively(a_dict, a_key)`: scan the dict's
keys in order and return the value of the first key equal to `a_key` after
lower-casing; raise `KeyNotFoundException` when none matches. -/
def ConfigurationCore.get_case_insensitively (a_dict : List (String × Value))
    (a_key : String) : Except PyErr Value :=
  match a_dict.find? (fun kv => lowerStr kv.1 == lowerStr a_key) with
  | some kv => .ok kv.2
  | none => .error .keyNotFound

/-- Python iteration `for x in v`: a sequence yields its elements, a dict its
keys, a string its characters (as one-character strings); scalars are not
iterable (`TypeError`). -/
def pyIter : Value → Except PyErr (List Value)
  | .seq l => .ok l
  | .map m => .ok (m.map (fun kv => Value.str kv.1))
  | .str s => .ok (s.toList.map (fun c => Value.str (String.mk [c])))
  | _ => .error .otherExc

/-- The loop body of `ConfigurationCore.is_skipped_case_insensitively` over the
already-iterated elements, with `item` already lower-cased (the source lowers
it once before the loop).  A non-string element makes `list_element.lower()`
raise `AttributeError`.  `list_element[:-2]` is `dropLast.dropLast`. -/
def skippedLoop : List Value → List Char → Except PyErr Bool
  | [], _ => .ok false
  | .str s :: rest, item =>
    let list_element := (lowerStr s).toList
    if list_element == item then .ok true
    else if List.isSuffixOf ['/', '*'] list_element
        && List.isPrefixOf list_element.dropLast.dropLast item
        && decide (list_element.dropLast.dropLast.length ≤ item.length) then
      .ok true
    else skippedLoop rest item
  | _ :: _, _ => .error .otherExc

/-- `ConfigurationCore.is_skipped_case_insensitively(an_array, item)`: true iff
some entry equals `item` after lower-casing, or some entry ends in `"/*"` and
`item` starts with that entry minus the suffix (all lower-cased), with the
source's redundant length guard kept verbatim. -/
def ConfigurationCore.is_skipped_case_insensitively (an_array : Value)
    (item : String) : Except PyErr Bool := do
  let elems ← pyIter an_array
  skippedLoop elems (lowerStr item).toList

/-- `ConfigurationCore.get_group_config(group)`: case-insensitive lookup of
`"<group>/*"` under `projects_and_groups`; `KeyNotFoundException` from either
the accessor or the lookup is caught and becomes `{}`.  A non-dict
`projects_and_groups` makes `a_dict.keys()` raise (uncaught). -/
def ConfigurationCore.get_group_config (config : Value) (group : String) :
    Except PyErr Value :=
  match ConfigurationCore.get config "projects_and_groups" with
  | .ok (.map m) =>
    match ConfigurationCore.get_case_insensitively m (group ++ "/*") with
    | .ok v => .ok v
    | .error _ => .ok (.map [])
  | .ok _ => .error .otherExc
  | .error _ => .ok (.map [])

/-- `ConfigurationCore.get_project_config(group_and_project)`: same as
`get_group_config` but looks up exactly `group_and_project`. -/
def ConfigurationCore.get_project_config (config : Value)
    (group_and_project : String) : Except PyErr Value :=
  match ConfigurationCore.get config "projects_and_groups" with
  | .ok (.map m) =>
    match ConfigurationCore.get_case_insensitively m group_and_project with
    | .ok v => .ok v
    | .error _ => .ok (.map [])
  | .ok _ => .error .otherExc
  | .error _ => .ok (.map [])

/-- `ConfigurationCore.get_common_config()`: `get("projects_and_groups|*", {})`;
the non-`None` default means this never raises. -/
def ConfigurationCore.get_common_config (config : Value) : Value :=
  match ConfigurationCore.get config "projects_and_groups|*" (.map []) with
  | .ok v => v
  | .error _ => .map []

/-- `ConfigurationCore.is_project_skipped(project)`. -/
def ConfigurationCore.is_project_skipped (config : Value) (project : String) :
    Except PyErr Bool :=
  match ConfigurationCore.get config "skip_projects" (.seq []) with
  | .ok an_array => ConfigurationCore.is_skipped_case_insensitively an_array project
  | .error e => .error e

/-- `ConfigurationCore.is_group_skipped(group)`. -/
def ConfigurationCore.is_group_skipped (config : Value) (group : String) :
    Except PyErr Bool :=
  match ConfigurationCore.get config "skip_groups" (.seq []) with
  | .ok an_array => ConfigurationCore.is_skipped_case_insensitively an_array group
  | .error e => .error e

mutual

/-- Value-level result of one `mergedeep` (strategy REPLACE) merge step: where
both sides hold mappings the merge recurses, otherwise the specific value
replaces the general one. -/
def merge_value : Value → Value → Value
  | .map g, .map s =>
    .map (merge_existing g s ++ s.filter (fun kv => (lookupA g kv.1).isNone))
  | _, s => s

/-- Keys already in the destination keep their position (`dst[key] = src[key]`
on an existing key replaces in place); their values are merged when both are
mappings, replaced otherwise. -/
def merge_existing : List (String × Value) → List (String × Value) → List (String × Value)
  | [], _ => []
  | (k, gv) :: rest, s =>
    (k, match lookupA s k with
        | some sv => merge_value gv sv
        | none => gv) :: merge_existing rest s

end

/-- `ConfigurationCore.merge_configs(more_general_config, more_specific_config)`
= `dict(merge({}, general, specific))`.  This is the value-level (tree) result:
mergedeep fills the fresh `{}` from `general`, then merges `specific` into it,
recursing where both values are mappings and replacing otherwise; `dict(...)`
shallow-copies the top level.  Non-mapping arguments make mergedeep raise
`TypeError` (modelled as an exception; every caller passes mappings).  The heap
model `mergedeep` below captures the same function's aliasing/mutation
behaviour, which the tree level cannot express. -/
def ConfigurationCore.merge_configs (more_general_config more_specific_config : Value) :
    Except PyErr Value :=
  match more_general_config, more_specific_config with
  | .map g, .map s => .ok (merge_value (.map g) (.map s))
  | _, _ => .error .otherExc


/-- Lexicographic-by-code-point comparison on character lists; this is the
string order Python's `sorted` uses. -/
def listLeb : List Char → List Char → Bool
  | [], _ => true
  | _ :: _, [] => false
  | a :: as, b :: bs => if a < b then true else if b < a then false else listLeb as bs

/-- `a <= b` on strings, as Python compares them (code-point lexicographic). -/
def strLe (a b : String) : Bool := listLeb a.toList b.toList

/-- Stable insertion: the new element goes after equal existing ones. -/
def insertStr (x : String) : List String → List String
  | [] => [x]
  | y :: ys => if strLe y x then y :: insertStr x ys else x :: y :: ys

/-- Python `sorted(l)`: stable ascending sort (insertion sort yields the same
list as any stable comparison sort). -/
def sortStrings (l : List String) : List String :=
  l.foldl (fun acc x => insertStr x acc) []

/-- `element.endswith("/*")` from `ConfigurationProjects.get_projects`. -/
def endsWithSlashStar (element : String) : Bool :=
  List.isSuffixOf ['/', '*'] element.toList

/-- `ConfigurationProjects.get_projects()`: the keys of `projects_and_groups`
that are neither `"*"` nor end in `"/*"`, sorted ascending.  The accessor is
called with no default and outside any `try`, so a missing
`projects_and_groups` propagates `KeyNotFoundException`; a non-dict value makes
`.keys()` raise. -/
def ConfigurationProjects.get_projects (config : Value) :
    Except PyErr (List String) :=
  match ConfigurationCore.get config "projects_and_groups" with
  | .ok (.map projects_and_groups) =>
    .ok (sortStrings ((projects_and_groups.map (fun kv => kv.1)).filter
      (fun element => !(element == "*") && !endsWithSlashStar element)))
  | .ok _ => .error .otherExc
  | .error e => .error e

/-- `group_and_project.rsplit("/", 1)` for a string containing `"/"`: the part
before the last slash and the part after it. -/
def rsplitSlash1 (s : String) : String × String :=
  (String.mk (joinWithChar '/' (splitOnChar '/' s.toList).dropLast),
   String.mk ((splitOnChar '/' s.toList).getLastD []))


/-- Python `"/" in s`. -/
def containsSlash (s : String) : Bool := s.toList.any (fun c => c == '/')

/-- The prefix-chain fold inside `get_effective_subgroup_config`: for segments
`[g1, g2, ...]` merge `get_group_config` of `g1`, `g1/g2`, ... in turn onto the
accumulator. -/
def subgroupFold (config : Value) : List String → String → Value → Except PyErr Value
  | [], _, acc => .ok acc
  | seg :: rest, pre, acc => do
    let level_group := if pre == "" then seg else pre ++ "/" ++ seg
    let level_config ← ConfigurationCore.get_group_config config level_group
    let acc' ← ConfigurationCore.merge_configs acc level_config
    subgroupFold config rest level_group acc'

/-- Modelled from the spec: the source file `gitlabform/configuration/groups.py`
(class `ConfigurationGroups`, method `get_effective_subgroup_config`) is not
under `src/`.  Spec §4.5: split the slash-joined chain into segments and fold
left-to-right, merging each ancestor's own layer — the case-insensitive
`"<prefix>/*"` lookup under `projects_and_groups`, empty tree if absent — on
top of the accumulated result, starting from the empty tree (the common layer
is merged separately by the project resolver, so that all subgroup layers take
precedence over it). -/
def ConfigurationGroups.get_effective_subgroup_config (config : Value)
    (subgroup : String) : Except PyErr Value :=
  subgroupFold config ((splitOnChar '/' subgroup.toList).map String.mk) "" (.map [])

/-- `ConfigurationProjects.get_effective_config_for_project(group_and_project)`:
merge the common layer, then the group/subgroup layer (the subgroup resolver
when the group part still contains `"/"`), then the project's own layer.
`rsplit("/", 1)` unpacking raises `ValueError` when the argument has no slash. -/
def ConfigurationProjects.get_effective_config_for_project (config : Value)
    (group_and_project : String) : Except PyErr Value := do
  let common_config := ConfigurationCore.get_common_config config
  if !containsSlash group_and_project then .error .otherExc else
  let group := (rsplitSlash1 group_and_project).1
  let group_config ←
    if containsSlash group then
      ConfigurationGroups.get_effective_subgroup_config config group
    else
      ConfigurationCore.get_group_config config group
  let project_config ← ConfigurationCore.get_project_config config group_and_project
  let common_and_group_config ← ConfigurationCore.merge_configs common_config group_config
  ConfigurationCore.merge_configs common_and_group_config project_config

/-- The inner loop of `_find_almost_duplicate`: walk the pre-lowered list
counting elements whose lower-cased form equals `first_item_lower`; report
(and stop) the moment the count reaches 2. -/
def reachesTwo (first_item_lower : List Char) : Nat → List String → Bool
  | _, [] => false
  | occurrences, second_item :: rest =>
    if first_item_lower == (lowerStr second_item).toList then
      if occurrences + 1 == 2 then true
      else reachesTwo first_item_lower (occurrences + 1) rest
    else reachesTwo first_item_lower occurrences rest

/-- The core of `ConfigurationCore._find_almost_duplicate` on the extracted
items: when the deduplicated originals and deduplicated lower-cased forms
differ in cardinality, report every item whose lower-cased form reaches a
second occurrence in the lower-cased list, in original order; otherwise report
nothing. -/
def ConfigurationCore.find_almost_duplicate_items (items : List String) : List String :=
  let items_with_lowercase_names := items.map lowerStr
  if items.dedup.length != items_with_lowercase_names.dedup.length then
    items.filter (fun first_item =>
      reachesTwo (lowerStr first_item).toList 0 items_with_lowercase_names)
  else []

/-- `[x.lower() for x in ...]` needs every iterated element to be a string. -/
def allStrings : List Value → Except PyErr (List String)
  | [] => .ok []
  | .str s :: rest => do
    let tail ← allStrings rest
    .ok (s :: tail)
  | _ :: _ => .error .otherExc

/-- `ConfigurationCore._find_almost_duplicate(configuration_path)`: read the
section with the defaultless accessor, take its keys if it is a dict and its
elements otherwise, and run the almost-duplicate scan. -/
def ConfigurationCore.find_almost_duplicate (config : Value)
    (configuration_path : String) : Except PyErr (List String) := do
  let dict_or_list ← ConfigurationCore.get config configuration_path
  match dict_or_list with
  | .map m => .ok (ConfigurationCore.find_almost_duplicate_items (m.map (fun kv => kv.1)))
  | other => do
    let elems ← pyIter other
    let items ← allStrings elems
    .ok (ConfigurationCore.find_almost_duplicate_items items)

/-- Python truthiness of a parsed YAML value. -/
def truthy : Value → Bool
  | .null => false
  | .bool b => b
  | .int n => !(n == 0)
  | .str s => !(s == "")
  | .seq l => !l.isEmpty
  | .map m => !m.isEmpty

/-- The `self.get(path, 0)` gate of `_find_almost_duplicates`: the default `0`
is not `None`, so this never raises. -/
def duplicateGate (config : Value) (path : String) : Value :=
  match ConfigurationCore.get config path (.int 0) with
  | .ok v => v
  | .error _ => .int 0

/-- The loop of `ConfigurationCore._find_almost_duplicates` over the protected
section names: a falsy section is skipped; otherwise a non-empty scan result is
fatal — `some (section, duplicates)` models that first fatal report, `none`
means construction proceeds. -/
def findAlmostDuplicatesLoop (config : Value) :
    List String → Except PyErr (Option (String × List String))
  | [] => .ok none
  | path :: rest =>
    if truthy (duplicateGate config path) then do
      let almost_duplicates ← ConfigurationCore.find_almost_duplicate config path
      if !almost_duplicates.isEmpty then .ok (some (path, almost_duplicates))
      else findAlmostDuplicatesLoop config rest
    else findAlmostDuplicatesLoop config rest

/-- `ConfigurationCore._find_almost_duplicates()` over the three protected
sections. -/
def ConfigurationCore.find_almost_duplicates (config : Value) :
    Except PyErr (Option (String × List String)) :=
  findAlmostDuplicatesLoop config ["projects_and_groups", "skip_groups", "skip_projects"]

/-- How a `ConfigurationCore` is being constructed, after the external file
reading / YAML parsing steps: an inline string's parsed tree, a config path's
parsed tree (also covering the `APP_HOME` and home-directory fallbacks, which
only change *which* file is parsed), or both arguments at once. -/
inductive ConfigSource where
  | fromString : Value → ConfigSource
  | fromPath : Value → ConfigSource
  | bothSources : ConfigSource

/-- Outcome of `ConfigurationCore.__init__`: the loaded tree, or one of the
fatal terminations / raised exceptions. -/
inductive InitOutcome where
  | ok : Value → InitOutcome
  | fatalBothSources : InitOutcome
  | fatalExampleConfig : InitOutcome
  | fatalUnsupportedVersion : InitOutcome
  | fatalAlmostDuplicates : String → List String → InitOutcome
  | raised : PyErr → InitOutcome

/-- Python `dict.get(key, default)` (`AttributeError` on a non-dict). -/
def pyDictGet (d : Value) (key : String) (default : Value) : Except PyErr Value :=
  match d with
  | .map m => .ok ((lookupA m key).getD default)
  | _ => .error .otherExc

/-- `v != 2` from the version check, for the literal int `2` (a string `"2"`,
a bool, etc. are all `!= 2` in Python). -/
def valueIsInt2 : Value → Bool
  | .int n => n == 2
  | _ => false

/-- `ConfigurationCore._load_config`: with both sources it is fatal before
parsing; the string branch only parses (the `example_config` and
`config_version` checks sit inside the `else:` path branch, so they do not run
here); the path branch parses and then applies the `example_config` and
`config_version: 2` checks.  A raised exception inside the `try` other than the
file-handling ones becomes `ConfigInvalidException`, modelled as `raised`. -/
def ConfigurationCore.load_config : ConfigSource → InitOutcome
  | .bothSources => .fatalBothSources
  | .fromString tree => .ok tree
  | .fromPath tree =>
    match pyDictGet tree "example_config" .null with
    | .error e => .raised e
    | .ok ex =>
      if truthy ex then .fatalExampleConfig
      else
        match pyDictGet tree "config_version" (.int 1) with
        | .error e => .raised e
        | .ok v =>
          if !valueIsInt2 v then .fatalUnsupportedVersion else .ok tree

/-- `ConfigurationCore.__init__`: `_load_config` then `_find_almost_duplicates`,
the latter fatal on a non-empty report. -/
def ConfigurationCore.init (source : ConfigSource) : InitOutcome :=
  match ConfigurationCore.load_config source with
  | .ok config =>
    match ConfigurationCore.find_almost_duplicates config with
    | .ok none => .ok config
    | .ok (some (path, dups)) => .fatalAlmostDuplicates path dups
    | .error e => .raised e
  | outcome => outcome

/-- The entry minus its two-character `"/*"` suffix. -/
def stripSlashStar (e : String) : String := String.mk e.toList.dropLast.dropLast

/-- Spec-side formulation of the skip-list match, following the claim's words:
the lower-cased item equals some lower-cased entry verbatim, or some entry ends
with the two-character suffix `"/*"` and the lower-cased item starts with that
entry's lower-cased prefix (the entry minus the suffix), as a literal
string-prefix check. -/
def skipSpecCond (entries : List String) (item : String) : Prop :=
  (∃ e ∈ entries, lowerStr item = lowerStr e) ∨
  (∃ e ∈ entries, endsWithSlashStar e = true ∧
    (lowerStr (stripSlashStar e)).toList <+: (lowerStr item).toList)

/-- Spec-side formulation of the accessor's descent (§4.1): one segment per
step, indexing mappings by exact key; a missing segment or a non-mapping value
fails with the `KeyNotFound` condition. -/
def specLookup : Value → List String → Except PyErr Value
  | v, [] => .ok v
  | .map m, seg :: rest =>
    match lookupA m seg with
    | some v => specLookup v rest
    | none => .error .keyNotFound
  | _, _ :: _ => .error .keyNotFound

/-- The end-to-end project-resolution fixture: common `{a: 1}`, group
`team/*` → `{a: 2, b: 1}`, project `team/proj` → `{a: 3}`. -/
def projectFixture : Value :=
  .map [("projects_and_groups", .map
    [("*", .map [("a", .int 1)]),
     ("team/*", .map [("a", .int 2), ("b", .int 1)]),
     ("team/proj", .map [("a", .int 3)])])]

/-- The subgroup-chain fixture: common `{a: 1}`, group `g/*` → `{a: 2, b: 1}`,
subgroup `g/sub/*` → `{a: 3, c: 1}`, project `g/sub/proj` → `{a: 4}`. -/
def subgroupFixture : Value :=
  .map [("projects_and_groups", .map
    [("*", .map [("a", .int 1)]),
     ("g/*", .map [("a", .int 2), ("b", .int 1)]),
     ("g/sub/*", .map [("a", .int 3), ("c", .int 1)]),
     ("g/sub/proj", .map [("a", .int 4)])])]

/-- The listing fixture: keys `["z/proj2", "*", "a/*", "a/proj1"]`. -/
def listingFixture : Value :=
  .map [("projects_and_groups", .map
    [("z/proj2", .int 0), ("*", .int 0), ("a/*", .int 0), ("a/proj1", .int 0)])]

/-! ## Theorems -/

/-- C3 counterexample: constructing from an inline string whose tree has
`config_version: 1` (and likewise one with no `config_version` at all)
succeeds, because the version check sits inside the `else:` path branch of
`_load_config` — so "for every way of constructing the Facade ... absence or 1
fails fatally" is false. -/
theorem claim3_counterexample_string_construction_skips_version_check :
    ConfigurationCore.init (.fromString (.map [("config_version", .int 1)]))
      = .ok (.map [("config_version", .int 1)])
    ∧ ConfigurationCore.init (.fromString (.map [])) = .ok (.map []) :=
  ⟨rfl, rfl⟩

/-- C4 counterexample: on the section `skip_groups: ["Team", "team"]` — one
collision group with two members — the detector reports *both* members, not
exactly one representative of the group. -/
theorem claim4_counterexample_both_members_reported :
    ConfigurationCore.find_almost_duplicate
        (.map [("skip_groups", .seq [.str "Team", .str "team"])]) "skip_groups"
      = .ok ["Team", "team"]
    ∧ lowerStr "Team" = lowerStr "team"
    ∧ "Team" ≠ "team" :=
  ⟨rfl, rfl, by decide⟩

/-- C5 counterexample: `get_projects` is a Facade query method other than raw
`get`, yet on a tree with no `projects_and_groups` section it raises
`KeyNotFound` — it calls the low-level accessor with no default and no
handler. -/
theorem claim5_counterexample_get_projects_raises :
    ConfigurationProjects.get_projects (.map []) = .error .keyNotFound :=
  rfl

theorem strToList_append (a b : String) : (a ++ b).toList = a.toList ++ b.toList := by
  cases a; cases b; rfl

theorem mk_toList (s : String) : String.mk s.toList = s := rfl

theorem splitOnChar_ne_nil (c : Char) (l : List Char) : splitOnChar c l ≠ [] := by
  cases l with
  | nil => simp [splitOnChar]
  | cons x xs =>
    simp only [splitOnChar]
    by_cases h : x = c
    · simp [h]
    · simp only [if_neg h]
      split <;> simp

theorem splitOnChar_append_sep (c : Char) (xs ys : List Char) :
    splitOnChar c (xs ++ c :: ys) = splitOnChar c xs ++ splitOnChar c ys := by
  induction xs with
  | nil => simp [splitOnChar]
  | cons x xs ih =>
    by_cases h : x = c
    · simp [splitOnChar, h, ih]
    · simp only [List.cons_append, splitOnChar, if_neg h]
      simp only [List.append_eq]
      obtain ⟨hd, tl, hs⟩ := List.exists_cons_of_ne_nil (splitOnChar_ne_nil c xs)
      rw [ih, hs]
      simp

theorem splitOnChar_of_not_mem (c : Char) (l : List Char) (h : c ∉ l) :
    splitOnChar c l = [l] := by
  induction l with
  | nil => rfl
  | cons x xs ih =>
    simp only [List.mem_cons, not_or] at h
    simp [splitOnChar, Ne.symm h.1, ih h.2]

theorem joinWithChar_splitOnChar (c : Char) (l : List Char) :
    joinWithChar c (splitOnChar c l) = l := by
  induction l with
  | nil => rfl
  | cons x xs ih =>
    simp only [splitOnChar]
    by_cases h : x = c
    · subst h
      simp only [if_pos rfl]
      obtain ⟨hd, tl, hs⟩ := List.exists_cons_of_ne_nil (splitOnChar_ne_nil x xs)
      rw [hs] at ih ⊢
      simpa [joinWithChar] using ih
    · simp only [if_neg h]
      obtain ⟨hd, tl, hs⟩ := List.exists_cons_of_ne_nil (splitOnChar_ne_nil c xs)
      rw [hs] at ih ⊢
      cases tl with
      | nil => simpa [joinWithChar] using ih
      | cons t ts => simpa [joinWithChar] using ih

theorem not_mem_toList_of_containsSlash_eq_false {s : String}
    (h : containsSlash s = false) : '/' ∉ s.toList := by
  intro hm
  simp only [containsSlash, List.any_eq_false] at h
  exact absurd (by simp) (h _ hm)

theorem rsplitSlash1_append (g p : String) (hp : containsSlash p = false) :
    rsplitSlash1 (g ++ "/" ++ p) = (g, p) := by
  have hp' : '/' ∉ p.toList := not_mem_toList_of_containsSlash_eq_false hp
  have hsl : ("/" : String).toList = ['/'] := rfl
  have hlist : (g ++ "/" ++ p).toList = g.toList ++ '/' :: p.toList := by
    rw [strToList_append, strToList_append, hsl]
    simp
  unfold rsplitSlash1
  rw [hlist, splitOnChar_append_sep, splitOnChar_of_not_mem _ _ hp']
  rw [List.dropLast_concat, List.getLastD_concat, joinWithChar_splitOnChar]
  exact Prod.ext (mk_toList g) (mk_toList p)

theorem containsSlash_mid (g p : String) : containsSlash (g ++ "/" ++ p) = true := by
  simp only [containsSlash, strToList_append, List.any_append]
  have : ("/" : String).toList.any (fun c => c == '/') = true := by decide
  simp [this]

/-- C1: the effective configuration for `"group/.../project"` is computed by
merging, general to specific, the common `"*"` layer, then the resolved
group/subgroup layer — the subgroup resolver when the group part still
contains `"/"`, otherwise `get_group_config`'s case-insensitive `"<group>/*"`
lookup (empty tree when absent) — then the project's own explicit layer
(`get_project_config`, likewise case-insensitive, empty tree when absent).
On the fixture with common `{a: 1}`, group `team/*` `{a: 2, b: 1}` and project
`team/proj` `{a: 3}`, the effective configuration of `"team/proj"` is
`{a: 3, b: 1}`; and on the subgroup-chain fixture the effective configuration
of `"g/sub/proj"` is `{a: 4, b: 1, c: 1}` (project over `g/sub/*` over `g/*`
over common). -/
theorem claim1_effective_project_config_merge_order :
    (∀ (config : Value) (g p : String), containsSlash p = false →
      ∀ gl pl : Value,
        (if containsSlash g
          then ConfigurationGroups.get_effective_subgroup_config config g
          else ConfigurationCore.get_group_config config g) = .ok gl →
        ConfigurationCore.get_project_config config (g ++ "/" ++ p) = .ok pl →
        ConfigurationProjects.get_effective_config_for_project config (g ++ "/" ++ p)
          = (ConfigurationCore.merge_configs (ConfigurationCore.get_common_config config) gl).bind
              (fun cag => ConfigurationCore.merge_configs cag pl))
    ∧ ConfigurationProjects.get_effective_config_for_project projectFixture "team/proj"
        = .ok (.map [("a", .int 3), ("b", .int 1)])
    ∧ ConfigurationProjects.get_effective_config_for_project subgroupFixture "g/sub/proj"
        = .ok (.map [("a", .int 4), ("b", .int 1), ("c", .int 1)]) := by
  refine ⟨?_, rfl, rfl⟩
  intro config g p hp gl pl hgl hpl
  unfold ConfigurationProjects.get_effective_config_for_project
  rw [containsSlash_mid, rsplitSlash1_append g p hp]
  simp only [Bool.not_true, Bool.false_eq_true, if_false, hpl]
  by_cases hc : containsSlash g
  · rw [if_pos hc] at hgl ⊢
    rw [hgl]
    rfl
  · rw [if_neg hc] at hgl ⊢
    rw [hgl]
    rfl

/-- C1 witness: the general merge-order statement applied on the
subgroup-chain branch of the fixture (group part `"g/sub"`). -/
theorem claim1_effective_project_config_merge_order_witness :
    ConfigurationProjects.get_effective_config_for_project subgroupFixture
        ("g/sub" ++ "/" ++ "proj")
      = (ConfigurationCore.merge_configs (ConfigurationCore.get_common_config subgroupFixture)
          (.map [("a", .int 3), ("b", .int 1), ("c", .int 1)])).bind
          (fun cag => ConfigurationCore.merge_configs cag (.map [("a", .int 4)])) :=
  claim1_effective_project_config_merge_order.1 subgroupFixture "g/sub" "proj" rfl
    (.map [("a", .int 3), ("b", .int 1), ("c", .int 1)]) (.map [("a", .int 4)]) rfl rfl

/-- C3 amended: from a filesystem path, a tree with `config_version` absent or
`1` fails fatally with the unsupported-version error and the literal integer
`2` passes the check (when `example_config` is not truthy); from an inline
string, no version check runs at all, so any tree loads. -/
theorem claim3_amended_version_check_only_on_path_branch :
    (∀ m : List (String × Value),
      truthy ((lookupA m "example_config").getD .null) = false →
      ((lookupA m "config_version" = none →
          ConfigurationCore.load_config (.fromPath (.map m)) = .fatalUnsupportedVersion)
        ∧ (lookupA m "config_version" = some (.int 1) →
          ConfigurationCore.load_config (.fromPath (.map m)) = .fatalUnsupportedVersion)
        ∧ (lookupA m "config_version" = some (.int 2) →
          ConfigurationCore.load_config (.fromPath (.map m)) = .ok (.map m))))
    ∧ (∀ tree : Value, ConfigurationCore.load_config (.fromString tree) = .ok tree) := by
  constructor
  · intro m hex
    refine ⟨fun hv => ?_, fun hv => ?_, fun hv => ?_⟩ <;>
      simp [ConfigurationCore.load_config, pyDictGet, hex, hv, valueIsInt2]
  · intro tree
    rfl

/-- C3 amended witness: a pathless tree with `config_version: 1` is rejected,
one with `config_version: 2` accepted, one with no version rejected; any
string-built tree accepted. -/
theorem claim3_amended_version_check_only_on_path_branch_witness :
    ConfigurationCore.load_config (.fromPath (.map [("config_version", .int 1)]))
        = .fatalUnsupportedVersion
    ∧ ConfigurationCore.load_config (.fromPath (.map [("config_version", .int 2)]))
        = .ok (.map [("config_version", .int 2)])
    ∧ ConfigurationCore.load_config (.fromPath (.map [])) = .fatalUnsupportedVersion :=
  ⟨(claim3_amended_version_check_only_on_path_branch.1 [("config_version", .int 1)] rfl).2.1 rfl,
   (claim3_amended_version_check_only_on_path_branch.1 [("config_version", .int 2)] rfl).2.2 rfl,
   (claim3_amended_version_check_only_on_path_branch.1 [] rfl).1 rfl⟩

/-- C9: passing `default=None` explicitly is the same call as passing no
default (`None` is the sentinel meaning "raise"), a failed traversal then
raises `KeyNotFound` rather than returning `None`, and any value that does
come back was found by the traversal itself — never produced as a fallback. -/
theorem claim9_explicit_none_default_still_raises :
    ∀ (config : Value) (path : String),
      ConfigurationCore.get config path .null = ConfigurationCore.get config path
      ∧ (traverseTokens config (pathTokens path) = none →
          ConfigurationCore.get config path .null = .error .keyNotFound)
      ∧ (∀ v, ConfigurationCore.get config path .null = .ok v →
          traverseTokens config (pathTokens path) = some v) := by
  intro config path
  refine ⟨rfl, fun h => ?_, fun v hv => ?_⟩
  · simp [ConfigurationCore.get, h]
  · unfold ConfigurationCore.get at hv
    cases ht : traverseTokens config (pathTokens path) with
    | some w => rw [ht] at hv; cases hv; rfl
    | none => rw [ht] at hv; exact absurd hv (by simp)

/-- C9 witness: a failed traversal with explicit `None` default raises, and a
returned value really is the traversed one. -/
theorem claim9_explicit_none_default_still_raises_witness :
    ConfigurationCore.get (.map []) "missing" .null = .error .keyNotFound
    ∧ traverseTokens (.map [("a", .int 5)]) (pathTokens "a") = some (.int 5) :=
  ⟨(claim9_explicit_none_default_still_raises (.map []) "missing").2.1 rfl,
   (claim9_explicit_none_default_still_raises (.map [("a", .int 5)]) "a").2.2 (.int 5) rfl⟩

theorem specLookup_eq_traverse (ts : List String) : ∀ v : Value,
    specLookup v ts = match traverseTokens v ts with
      | some w => Except.ok w
      | none => Except.error PyErr.keyNotFound := by
  induction ts with
  | nil => intro v; cases v <;> rfl
  | cons t ts ih =>
    intro v
    cases v with
    | map m =>
      simp only [specLookup, traverseTokens, indexInto]
      cases lookupA m t with
      | some w => exact ih w
      | none => rfl
    | null => rfl
    | bool b => rfl
    | int n => rfl
    | str s => rfl
    | seq l => rfl

/-- C7: `get(path, default)` equals the spec-side descent `specLookup` — one
segment per step, indexing mappings by exact key — returning the addressed
value on success, and on any failure (absent segment or non-mapping
intermediate) the caller's default unless that default is the "not supplied"
sentinel `None`, in which case `KeyNotFound` is raised; illustrated on a
nested tree for all four outcomes. -/
theorem claim7_get_descends_by_segment :
    (∀ (config : Value) (path : String) (default : Value),
      ConfigurationCore.get config path default
        = match specLookup config (pathTokens path), default with
          | .ok v, _ => .ok v
          | .error _, .null => .error .keyNotFound
          | .error _, d => .ok d)
    ∧ ConfigurationCore.get (.map [("a", .map [("b", .int 7)])]) "a|b" = .ok (.int 7)
    ∧ ConfigurationCore.get (.map [("a", .map [("b", .int 7)])]) "a|c" = .error .keyNotFound
    ∧ ConfigurationCore.get (.map [("a", .map [("b", .int 7)])]) "a|c" (.int 9) = .ok (.int 9)
    ∧ ConfigurationCore.get (.map [("a", .int 1)]) "a|b" (.str "d") = .ok (.str "d") := by
  refine ⟨fun config path default => ?_, rfl, rfl, rfl, rfl⟩
  cases ht : traverseTokens config (pathTokens path) with
  | some v =>
    have hs : specLookup config (pathTokens path) = .ok v := by
      rw [specLookup_eq_traverse, ht]
    rw [hs]
    unfold ConfigurationCore.get
    rw [ht]
  | none =>
    have hs : specLookup config (pathTokens path) = .error .keyNotFound := by
      rw [specLookup_eq_traverse, ht]
    rw [hs]
    unfold ConfigurationCore.get
    rw [ht]
    cases default <;> rfl

theorem reported_section_truthy (config : Value) :
    ∀ (paths : List String) (p : String) (d : List String),
      findAlmostDuplicatesLoop config paths = .ok (some (p, d)) →
      truthy (duplicateGate config p) = true := by
  intro paths
  induction paths with
  | nil =>
    intro p d h
    exact absurd h (by simp [findAlmostDuplicatesLoop])
  | cons path rest ih =>
    intro p d h
    unfold findAlmostDuplicatesLoop at h
    by_cases ht : truthy (duplicateGate config path)
    · rw [if_pos ht] at h
      cases hf : ConfigurationCore.find_almost_duplicate config path with
      | error e =>
        rw [hf] at h
        simp only [Bind.bind, Except.bind] at h
        exact absurd h (by simp)
      | ok ad =>
        rw [hf] at h
        simp only [Bind.bind, Except.bind] at h
        by_cases hne : ad.isEmpty
        · simp only [hne, Bool.not_true, Bool.false_eq_true, if_false] at h
          exact ih p d h
        · rw [Bool.not_eq_true] at hne
          simp only [hne, Bool.not_false, if_true, Except.ok.injEq, Option.some.injEq,
            Prod.mk.injEq] at h
          rw [← h.1]
          exact ht
    · rw [if_neg ht] at h
      exact ih p d h

/-- C10: an absent protected section makes the `self.get(path, 0)` gate return
the falsy `0`, and a falsy gate (absent, empty, `null`, ...) means the
duplicate scan skips that section, so construction can never abort with the
almost-duplicate error on account of that section. -/
theorem claim10_falsy_protected_section_skipped :
    ∀ (config : Value) (p : String),
      (traverseTokens config (pathTokens p) = none →
        truthy (duplicateGate config p) = false)
      ∧ (truthy (duplicateGate config p) = false →
          (∀ d, ConfigurationCore.find_almost_duplicates config ≠ .ok (some (p, d)))
          ∧ (∀ (src : ConfigSource) (d : List String),
              ConfigurationCore.load_config src = .ok config →
              ConfigurationCore.init src ≠ .fatalAlmostDuplicates p d)) := by
  intro config p
  constructor
  · intro h
    simp [duplicateGate, ConfigurationCore.get, h, truthy]
  · intro hfalse
    have hnot : ∀ d, ConfigurationCore.find_almost_duplicates config ≠ .ok (some (p, d)) := by
      intro d h
      have := reported_section_truthy config _ p d h
      rw [hfalse] at this
      exact absurd this (by simp)
    refine ⟨hnot, fun src d hld hinit => ?_⟩
    have hinit_eq : ConfigurationCore.init src
        = (match ConfigurationCore.find_almost_duplicates config with
            | .ok none => InitOutcome.ok config
            | .ok (some (path, dups)) => .fatalAlmostDuplicates path dups
            | .error e => .raised e) := by
      unfold ConfigurationCore.init
      rw [hld]
    rw [hinit_eq] at hinit
    cases hdup : ConfigurationCore.find_almost_duplicates config with
    | error e =>
      rw [hdup] at hinit
      exact absurd hinit (by simp)
    | ok o =>
      cases o with
      | none =>
        rw [hdup] at hinit
        exact absurd hinit (by simp)
      | some pd =>
        obtain ⟨q, dq⟩ := pd
        rw [hdup] at hinit
        simp only [InitOutcome.fatalAlmostDuplicates.injEq] at hinit
        rw [hinit.1, hinit.2] at hdup
        exact hnot d hdup

/-- C10 witness: on the empty tree each protected section is absent, hence
falsy, hence never the source of an almost-duplicate abort. -/
theorem claim10_falsy_protected_section_skipped_witness :
    truthy (duplicateGate (.map []) "skip_groups") = false
    ∧ ∀ d, ConfigurationCore.find_almost_duplicates (.map []) ≠ .ok (some ("skip_groups", d)) :=
  ⟨(claim10_falsy_protected_section_skipped (.map []) "skip_groups").1 rfl,
   ((claim10_falsy_protected_section_skipped (.map []) "skip_groups").2 rfl).1⟩

theorem listLeb_total (a : List Char) : ∀ b, listLeb a b = true ∨ listLeb b a = true := by
  induction a with
  | nil => intro b; left; rfl
  | cons x xs ih =>
    intro b
    cases b with
    | nil => right; rfl
    | cons y ys =>
      simp only [listLeb]
      rcases lt_trichotomy x y with h | h | h
      · left; simp [h]
      · subst h
        simp only [if_neg (lt_irrefl x)]
        exact ih ys
      · right; simp [h]

theorem listLeb_trans (a : List Char) :
    ∀ b c, listLeb a b = true → listLeb b c = true → listLeb a c = true := by
  induction a with
  | nil => intro b c _ _; rfl
  | cons x xs ih =>
    intro b c h1 h2
    cases b with
    | nil => simp [listLeb] at h1
    | cons y ys =>
      cases c with
      | nil => simp [listLeb] at h2
      | cons z zs =>
        simp only [listLeb] at h1 h2 ⊢
        rcases lt_trichotomy x y with hxy | hxy | hxy
        · rcases lt_trichotomy y z with hyz | hyz | hyz
          · simp [lt_trans hxy hyz]
          · subst hyz; simp [hxy]
          · rw [if_neg (asymm hyz), if_pos hyz] at h2
            exact absurd h2 (by simp)
        · subst hxy
          rw [if_neg (lt_irrefl x), if_neg (lt_irrefl x)] at h1
          rcases lt_trichotomy x z with hxz | hxz | hxz
          · simp [hxz]
          · subst hxz
            rw [if_neg (lt_irrefl x), if_neg (lt_irrefl x)] at h2 ⊢
            exact ih ys zs h1 h2
          · rw [if_neg (asymm hxz), if_pos hxz] at h2
            exact absurd h2 (by simp)
        · rw [if_neg (asymm hxy), if_pos hxy] at h1
          exact absurd h1 (by simp)

theorem strLe_total (a b : String) : strLe a b = true ∨ strLe b a = true :=
  listLeb_total a.toList b.toList

theorem strLe_trans (a b c : String) :
    strLe a b = true → strLe b c = true → strLe a c = true :=
  listLeb_trans a.toList b.toList c.toList

theorem insertStr_perm (x : String) (l : List String) : List.Perm (insertStr x l) (x :: l) := by
  induction l with
  | nil => exact List.Perm.refl _
  | cons y ys ih =>
    by_cases h : strLe y x
    · simp only [insertStr, if_pos h]
      exact (List.Perm.cons y ih).trans (List.Perm.swap x y ys)
    · simp only [insertStr, if_neg h]
      exact List.Perm.refl _

theorem pairwise_insertStr (x : String) (l : List String)
    (h : l.Pairwise (fun a b => strLe a b = true)) :
    (insertStr x l).Pairwise (fun a b => strLe a b = true) := by
  induction l with
  | nil => simp [insertStr]
  | cons y ys ih =>
    rcases List.pairwise_cons.mp h with ⟨hy, hys⟩
    by_cases hle : strLe y x
    · simp only [insertStr, if_pos hle]
      refine List.pairwise_cons.mpr ⟨?_, ih hys⟩
      intro b hb
      have hb' := (insertStr_perm x ys).mem_iff.mp hb
      rcases List.mem_cons.mp hb' with rfl | hbys
      · exact hle
      · exact hy b hbys
    · simp only [insertStr, if_neg hle]
      refine List.pairwise_cons.mpr ⟨?_, h⟩
      intro b hb
      rcases List.mem_cons.mp hb with rfl | hbys
      · rcases strLe_total x b with htot | htot
        · exact htot
        · exact absurd htot hle
      · have hxy : strLe x y = true := by
          rcases strLe_total x y with htot | htot
          · exact htot
          · exact absurd htot hle
        exact strLe_trans x y b hxy (hy b hbys)

theorem sortStrings_perm (l : List String) : List.Perm (sortStrings l) l := by
  suffices h : ∀ acc : List String, List.Perm (l.foldl (fun acc x => insertStr x acc) acc) (acc ++ l) by
    simpa using h []
  induction l with
  | nil => intro acc; simp
  | cons x xs ih =>
    intro acc
    simp only [List.foldl_cons]
    exact (ih (insertStr x acc)).trans
      (((insertStr_perm x acc).append_right xs).trans List.perm_middle.symm)

theorem sortStrings_pairwise (l : List String) :
    (sortStrings l).Pairwise (fun a b => strLe a b = true) := by
  suffices h : ∀ acc, acc.Pairwise (fun a b => strLe a b = true) →
      (l.foldl (fun acc x => insertStr x acc) acc).Pairwise (fun a b => strLe a b = true) by
    exact h [] (by simp)
  induction l with
  | nil => intro acc hacc; simpa using hacc
  | cons x xs ih =>
    intro acc hacc
    simp only [List.foldl_cons]
    exact ih (insertStr x acc) (pairwise_insertStr x acc hacc)

/-- C8: on any tree whose `projects_and_groups` is a mapping, `get_projects`
returns exactly the keys that are neither `"*"` nor end in `"/*"` (a
permutation of that filtered key list), sorted ascending in the raw
code-point (case-sensitive) string order; on the fixture with keys
`["z/proj2", "*", "a/*", "a/proj1"]` it returns `["a/proj1", "z/proj2"]`. -/
theorem claim8_get_projects_filters_and_sorts :
    (∀ (config : Value) (m : List (String × Value)),
      traverseTokens config (pathTokens "projects_and_groups") = some (.map m) →
      ∃ l, ConfigurationProjects.get_projects config = .ok l
        ∧ l.Pairwise (fun a b => strLe a b = true)
        ∧ List.Perm l ((m.map (fun kv => kv.1)).filter
            (fun element => !(element == "*") && !endsWithSlashStar element)))
    ∧ ConfigurationProjects.get_projects listingFixture = .ok ["a/proj1", "z/proj2"] := by
  constructor
  · intro config m h
    refine ⟨sortStrings ((m.map (fun kv => kv.1)).filter
      (fun element => !(element == "*") && !endsWithSlashStar element)),
      ?_, sortStrings_pairwise _, sortStrings_perm _⟩
    unfold ConfigurationProjects.get_projects ConfigurationCore.get
    rw [h]
  · rfl

/-- C8 witness: the general statement applied to the fixture. -/
theorem claim8_get_projects_filters_and_sorts_witness :
    ∃ l, ConfigurationProjects.get_projects listingFixture = .ok l
      ∧ l.Pairwise (fun a b => strLe a b = true)
      ∧ List.Perm l (([("z/proj2", Value.int 0), ("*", Value.int 0), ("a/*", Value.int 0),
          ("a/proj1", Value.int 0)].map (fun kv => kv.1)).filter
            (fun element => !(element == "*") && !endsWithSlashStar element)) :=
  claim8_get_projects_filters_and_sorts.1 listingFixture _ rfl

theorem toNat_ofNat_of_valid {n : Nat} (h : n.isValidChar) :
    (Char.ofNat n).toNat = n := by
  unfold Char.ofNat
  rw [dif_pos h]
  rfl

theorem toLower_eq_iff_of_lt65 (d : Char) (hd : d.toNat < 65) (c : Char) :
    Char.toLower c = d ↔ c = d := by
  constructor
  · intro h
    unfold Char.toLower at h
    simp only [ge_iff_le] at h
    by_cases hc : 65 ≤ c.toNat ∧ c.toNat ≤ 90
    · rw [if_pos hc] at h
      have hv : (Char.toNat c + 32).isValidChar := Or.inl (by omega)
      have h2 := congrArg Char.toNat h
      rw [toNat_ofNat_of_valid hv] at h2
      exact ((by omega : False)).elim
    · rw [if_neg hc] at h
      exact h
  · intro h
    subst h
    unfold Char.toLower
    rw [if_neg]
    intro hc
    omega

theorem toList_inj {a b : String} (h : a.toList = b.toList) : a = b := by
  cases a
  cases b
  simpa using congrArg String.mk h

theorem map_toLower_suffix_slashStar (l : List Char) :
    ['/', '*'].IsSuffix (l.map Char.toLower) ↔ ['/', '*'].IsSuffix l := by
  constructor
  · rintro ⟨t, ht⟩
    obtain ⟨s₁, t₁, rfl, hs₁, ht₁⟩ := List.append_eq_map_iff.mp ht
    cases t₁ with
    | nil => exact absurd ht₁ (by simp)
    | cons a t₂ =>
      cases t₂ with
      | nil => exact absurd ht₁ (by simp)
      | cons b t₃ =>
        cases t₃ with
        | nil =>
          simp only [List.map_cons, List.map_nil, List.cons.injEq, and_true] at ht₁
          have ha : a = '/' := (toLower_eq_iff_of_lt65 '/' (by decide) a).mp ht₁.1
          have hb : b = '*' := (toLower_eq_iff_of_lt65 '*' (by decide) b).mp ht₁.2
          subst ha; subst hb
          exact ⟨s₁, rfl⟩
        | cons x t₄ => exact absurd ht₁ (by simp)
  · rintro ⟨t, rfl⟩
    refine ⟨t.map Char.toLower, ?_⟩
    simp

theorem skippedLoop_str_any (litem : List Char) : ∀ entries : List String,
    skippedLoop (entries.map Value.str) litem
      = .ok (entries.any (fun s =>
          ((lowerStr s).toList == litem)
          || (List.isSuffixOf ['/', '*'] (lowerStr s).toList
              && List.isPrefixOf (lowerStr s).toList.dropLast.dropLast litem
              && decide ((lowerStr s).toList.dropLast.dropLast.length ≤ litem.length)))) := by
  intro entries
  induction entries with
  | nil => rfl
  | cons s rest ih =>
    simp only [List.map_cons, skippedLoop, List.any_cons]
    by_cases h1 : (lowerStr s).toList == litem
    · rw [if_pos h1, h1]
      simp
    · rw [if_neg h1]
      by_cases h2 : (List.isSuffixOf ['/', '*'] (lowerStr s).toList
          && List.isPrefixOf (lowerStr s).toList.dropLast.dropLast litem
          && decide ((lowerStr s).toList.dropLast.dropLast.length ≤ litem.length)) = true
      · rw [if_pos h2, h2]
        simp [Bool.or_true]
      · rw [if_neg h2, ih]
        rw [Bool.not_eq_true] at h1 h2
        rw [h1, h2]
        simp

theorem lower_dropLast2 (e : String) :
    (lowerStr (stripSlashStar e)).toList = (lowerStr e).toList.dropLast.dropLast := by
  show (e.toList.dropLast.dropLast).map Char.toLower
      = (e.toList.map Char.toLower).dropLast.dropLast
  rw [List.map_dropLast, List.map_dropLast]

theorem skipMatch_iff (item e : String) :
    (((lowerStr e).toList == (lowerStr item).toList)
      || (List.isSuffixOf ['/', '*'] (lowerStr e).toList
          && List.isPrefixOf (lowerStr e).toList.dropLast.dropLast (lowerStr item).toList
          && decide ((lowerStr e).toList.dropLast.dropLast.length
              ≤ (lowerStr item).toList.length))) = true
    ↔ (lowerStr item = lowerStr e
       ∨ (endsWithSlashStar e = true
          ∧ (lowerStr (stripSlashStar e)).toList <+: (lowerStr item).toList)) := by
  rw [Bool.or_eq_true, Bool.and_eq_true, Bool.and_eq_true]
  constructor
  · rintro (h | ⟨⟨hsuf, hpre⟩, _⟩)
    · exact Or.inl (toList_inj (beq_iff_eq.mp h)).symm
    · refine Or.inr ⟨?_, ?_⟩
      · rw [endsWithSlashStar, List.isSuffixOf_iff_suffix]
        exact (map_toLower_suffix_slashStar e.toList).mp
          ((List.isSuffixOf_iff_suffix).mp hsuf)
      · rw [lower_dropLast2]
        exact (List.isPrefixOf_iff_prefix).mp hpre
  · rintro (h | ⟨hsuf, hpre⟩)
    · exact Or.inl (beq_iff_eq.mpr (congrArg String.toList h.symm))
    · refine Or.inr ⟨⟨?_, ?_⟩, ?_⟩
      · rw [List.isSuffixOf_iff_suffix]
        exact (map_toLower_suffix_slashStar e.toList).mpr
          ((List.isSuffixOf_iff_suffix).mp hsuf)
      · rw [List.isPrefixOf_iff_prefix, ← lower_dropLast2]
        exact hpre
      · rw [decide_eq_true_eq, ← lower_dropLast2]
        exact hpre.length_le

/-- C6: the skip-list match returns true exactly when the lower-cased item
equals some lower-cased entry verbatim, or some entry ends with the
two-character suffix `"/*"` and the lower-cased item starts with that entry's
lower-cased prefix (the entry minus the suffix) as a literal string prefix —
no path-segment awareness; and on `["GroupA/*"]`: `"groupa/sub"` matches,
`"groupb/sub"` does not, and `"GroupA"` (item length equal to prefix length)
matches. -/
theorem claim6_skip_wildcard_prefix_semantics :
    (∀ (entries : List String) (item : String),
      (ConfigurationCore.is_skipped_case_insensitively (.seq (entries.map .str)) item = .ok true
        ↔ skipSpecCond entries item)
      ∧ (ConfigurationCore.is_skipped_case_insensitively (.seq (entries.map .str)) item = .ok false
        ↔ ¬ skipSpecCond entries item))
    ∧ ConfigurationCore.is_skipped_case_insensitively (.seq [.str "GroupA/*"]) "groupa/sub"
        = .ok true
    ∧ ConfigurationCore.is_skipped_case_insensitively (.seq [.str "GroupA/*"]) "groupb/sub"
        = .ok false
    ∧ ConfigurationCore.is_skipped_case_insensitively (.seq [.str "GroupA/*"]) "GroupA"
        = .ok true := by
  refine ⟨fun entries item => ?_, rfl, rfl, rfl⟩
  have hrun : ConfigurationCore.is_skipped_case_insensitively (.seq (entries.map .str)) item
      = skippedLoop (entries.map Value.str) (lowerStr item).toList := rfl
  have hany := skippedLoop_str_any (lowerStr item).toList entries
  have hiff : (entries.any (fun s =>
      ((lowerStr s).toList == (lowerStr item).toList)
      || (List.isSuffixOf ['/', '*'] (lowerStr s).toList
          && List.isPrefixOf (lowerStr s).toList.dropLast.dropLast (lowerStr item).toList
          && decide ((lowerStr s).toList.dropLast.dropLast.length
              ≤ (lowerStr item).toList.length)))) = true
      ↔ skipSpecCond entries item := by
    rw [List.any_eq_true]
    unfold skipSpecCond
    constructor
    · rintro ⟨e, he, hm⟩
      rcases (skipMatch_iff item e).mp hm with h | h
      · exact Or.inl ⟨e, he, h⟩
      · exact Or.inr ⟨e, he, h⟩
    · rintro (⟨e, he, h⟩ | ⟨e, he, h⟩)
      · exact ⟨e, he, (skipMatch_iff item e).mpr (Or.inl h)⟩
      · exact ⟨e, he, (skipMatch_iff item e).mpr (Or.inr h)⟩
  constructor
  · rw [hrun, hany]
    simp only [Except.ok.injEq]
    exact hiff
  · rw [hrun, hany]
    simp only [Except.ok.injEq]
    constructor
    · intro h hc
      have := hiff.mpr hc
      rw [h] at this
      exact absurd this (by simp)
    · intro h
      cases ha : (entries.any (fun s =>
          ((lowerStr s).toList == (lowerStr item).toList)
          || (List.isSuffixOf ['/', '*'] (lowerStr s).toList
              && List.isPrefixOf (lowerStr s).toList.dropLast.dropLast (lowerStr item).toList
              && decide ((lowerStr s).toList.dropLast.dropLast.length
                  ≤ (lowerStr item).toList.length)))) with
      | false => rfl
      | true => exact absurd (hiff.mp ha) h

theorem toLower_toLower (c : Char) : (c.toLower).toLower = c.toLower := by
  by_cases hc : 65 ≤ c.toNat ∧ c.toNat ≤ 90
  · have h1 : c.toLower = Char.ofNat (c.toNat + 32) := by
      unfold Char.toLower
      simp only [ge_iff_le]
      rw [if_pos hc]
    rw [h1]
    have h2 : (Char.ofNat (c.toNat + 32)).toNat = c.toNat + 32 :=
      toNat_ofNat_of_valid (Or.inl (by omega))
    unfold Char.toLower
    simp only [ge_iff_le, h2]
    rw [if_neg (by omega)]
  · have h1 : c.toLower = c := by
      unfold Char.toLower
      simp only [ge_iff_le]
      rw [if_neg hc]
    rw [h1, h1]

theorem lowerStr_idem (s : String) : lowerStr (lowerStr s) = lowerStr s := by
  show String.mk ((s.toList.map Char.toLower).map Char.toLower) = _
  rw [List.map_map]
  exact congrArg String.mk (List.map_congr_left (fun a _ => toLower_toLower a))

theorem reachesTwo_eq (x : List Char) : ∀ (l : List String) (occ : Nat), occ ≤ 1 →
    reachesTwo x occ l
      = decide (2 ≤ occ + l.countP (fun y => x == (lowerStr y).toList)) := by
  intro l
  induction l with
  | nil =>
    intro occ h
    simp only [reachesTwo, List.countP_nil, Nat.add_zero]
    symm
    rw [decide_eq_false_iff_not]
    omega
  | cons y ys ih =>
    intro occ hocc
    simp only [reachesTwo, List.countP_cons]
    by_cases hm : (x == (lowerStr y).toList) = true
    · rw [if_pos hm]
      by_cases h2 : (occ + 1 == 2) = true
      · rw [if_pos h2]
        have h2' : occ + 1 = 2 := by simpa using h2
        symm
        rw [decide_eq_true_iff]
        simp only [hm, if_true]
        omega
      · rw [if_neg h2]
        have h2' : occ + 1 ≠ 2 := by simpa using h2
        rw [ih (occ + 1) (by omega)]
        simp only [hm, if_true, decide_eq_decide]
        omega
    · rw [if_neg hm, ih occ hocc]
      rw [Bool.not_eq_true] at hm
      have hne : ¬ (x = (lowerStr y).data) := by simpa [String.toList] using hm
      simp [hne]

theorem countP_two_of_mem_distinct {p : String → Bool} :
    ∀ {items : List String} {a b : String}, a ∈ items → b ∈ items → a ≠ b →
      p a = true → p b = true → 2 ≤ items.countP p := by
  intro items
  induction items with
  | nil => intro a b ha _ _ _ _; exact absurd ha (by simp)
  | cons x rest ih =>
    intro a b ha hb hab hpa hpb
    rw [List.countP_cons]
    rcases List.mem_cons.mp ha with rfl | ha'
    · have hb' : b ∈ rest := by
        rcases List.mem_cons.mp hb with rfl | h
        · exact absurd rfl hab
        · exact h
      have : 0 < rest.countP p := List.countP_pos_iff.mpr ⟨b, hb', hpb⟩
      simp only [hpa, if_true]
      omega
    · rcases List.mem_cons.mp hb with rfl | hb'
      · have : 0 < rest.countP p := List.countP_pos_iff.mpr ⟨a, ha', hpa⟩
        simp only [hpb, if_true]
        omega
      · have := ih ha' hb' hab hpa hpb
        omega

theorem toFinset_map_lower (l : List String) :
    (l.map lowerStr).toFinset = l.toFinset.image lowerStr := by
  induction l with
  | nil => simp
  | cons x xs ih => simp [ih]

theorem dedup_length_ne_iff (items : List String) :
    items.dedup.length ≠ (items.map lowerStr).dedup.length
    ↔ ∃ a ∈ items, ∃ b ∈ items, a ≠ b ∧ lowerStr a = lowerStr b := by
  have h1 : items.dedup.length = items.toFinset.card := (List.card_toFinset items).symm
  have h2 : (items.map lowerStr).dedup.length = (items.toFinset.image lowerStr).card := by
    rw [← List.card_toFinset, toFinset_map_lower]
  rw [h1, h2]
  constructor
  · intro hne
    have hni : ¬ Set.InjOn lowerStr ↑items.toFinset := fun hinj =>
      hne (Finset.card_image_iff.mpr hinj).symm
    simp only [Set.InjOn, not_forall] at hni
    obtain ⟨a, ha, b, hb, hfe, hne'⟩ := hni
    refine ⟨a, ?_, b, ?_, hne', hfe⟩
    · exact List.mem_toFinset.mp (Finset.mem_coe.mp ha)
    · exact List.mem_toFinset.mp (Finset.mem_coe.mp hb)
  · rintro ⟨a, ha, b, hb, hab, hlow⟩ heq
    have hinj := Finset.card_image_iff.mp heq.symm
    exact hab (hinj (Finset.mem_coe.mpr (List.mem_toFinset.mpr ha))
      (Finset.mem_coe.mpr (List.mem_toFinset.mpr hb)) hlow)

theorem findSource_pred_eq (items : List String) (x : String) :
    reachesTwo (lowerStr x).toList 0 (items.map lowerStr)
      = decide (2 ≤ (items.map lowerStr).count (lowerStr x)) := by
  rw [reachesTwo_eq _ _ 0 (by omega)]
  simp only [Nat.zero_add]
  rw [decide_eq_decide]
  have hcount : (items.map lowerStr).countP
        (fun y => (lowerStr x).toList == (lowerStr y).toList)
      = (items.map lowerStr).count (lowerStr x) := by
    rw [show (items.map lowerStr).count (lowerStr x)
        = (items.map lowerStr).countP (fun y => y == lowerStr x) from rfl]
    apply List.countP_congr
    intro y hy
    obtain ⟨o, ho, rfl⟩ := List.mem_map.mp hy
    rw [lowerStr_idem]
    constructor
    · intro h
      exact beq_iff_eq.mpr (toList_inj (beq_iff_eq.mp h)).symm
    · intro h
      exact beq_iff_eq.mpr (congrArg String.toList (beq_iff_eq.mp h).symm)
  rw [hcount]

theorem find_items_eq_filter (items : List String)
    (hcol : ∃ a ∈ items, ∃ b ∈ items, a ≠ b ∧ lowerStr a = lowerStr b) :
    ConfigurationCore.find_almost_duplicate_items items
      = items.filter (fun x => decide (2 ≤ (items.map lowerStr).count (lowerStr x))) := by
  have hne := (dedup_length_ne_iff items).mpr hcol
  show (if items.dedup.length != (items.map lowerStr).dedup.length then
      items.filter (fun first_item =>
        reachesTwo (lowerStr first_item).toList 0 (items.map lowerStr)) else [])
    = _
  rw [if_pos (by simpa using hne)]
  exact List.filter_congr (fun x _ => findSource_pred_eq items x)

/-- C4 amended: the detector reports *every* item (each occurrence, in
original iteration order) whose lower-cased form occurs at least twice in the
lower-cased item list — all members of every collision group, not one
representative per group — a non-empty result whenever some two distinct items
collide under lower-casing, and the empty list when lower-casing is injective
on the items; for a mapping section the items are its keys. -/
theorem claim4_amended_every_member_reported :
    ∀ items : List String,
      ((∀ a ∈ items, ∀ b ∈ items, lowerStr a = lowerStr b → a = b) →
        ConfigurationCore.find_almost_duplicate_items items = [])
      ∧ ((∃ a ∈ items, ∃ b ∈ items, a ≠ b ∧ lowerStr a = lowerStr b) →
        ConfigurationCore.find_almost_duplicate_items items
          = items.filter (fun x => decide (2 ≤ (items.map lowerStr).count (lowerStr x)))
        ∧ ConfigurationCore.find_almost_duplicate_items items ≠ [])
      ∧ (∀ (config : Value) (m : List (String × Value)) (path : String),
          traverseTokens config (pathTokens path) = some (.map m) →
          ConfigurationCore.find_almost_duplicate config path
            = .ok (ConfigurationCore.find_almost_duplicate_items (m.map (fun kv => kv.1)))) := by
  intro items
  refine ⟨fun hinj => ?_, fun hcol => ?_, fun config m path h => ?_⟩
  · have hlen : items.dedup.length = (items.map lowerStr).dedup.length := by
      by_contra hne
      obtain ⟨a, ha, b, hb, hab, hl⟩ := (dedup_length_ne_iff items).mp hne
      exact hab (hinj a ha b hb hl)
    show (if items.dedup.length != (items.map lowerStr).dedup.length then
        items.filter (fun first_item =>
          reachesTwo (lowerStr first_item).toList 0 (items.map lowerStr)) else []) = []
    rw [if_neg (by simp [hlen])]
  · have hfe := find_items_eq_filter items hcol
    refine ⟨hfe, ?_⟩
    rw [hfe]
    obtain ⟨a, ha, b, hb, hab, hl⟩ := hcol
    have hpa : 2 ≤ (items.map lowerStr).count (lowerStr a) := by
      rw [show (items.map lowerStr).count (lowerStr a)
          = items.countP ((fun y => y == lowerStr a) ∘ lowerStr)
          from List.countP_map _ _ _]
      exact countP_two_of_mem_distinct ha hb hab (by simp)
        (by simp [Function.comp, hl])
    have hmem : a ∈ items.filter
        (fun x => decide (2 ≤ (items.map lowerStr).count (lowerStr x))) :=
      List.mem_filter.mpr ⟨ha, by simpa using hpa⟩
    exact List.ne_nil_of_mem hmem
  · unfold ConfigurationCore.find_almost_duplicate ConfigurationCore.get
    rw [h]
    rfl

/-- C4 amended witness: on `["Team", "team"]` the detector's output is the
count-two filter — here both items — and non-empty. -/
theorem claim4_amended_every_member_reported_witness :
    ConfigurationCore.find_almost_duplicate_items ["Team", "team"]
      = ["Team", "team"].filter
          (fun x => decide (2 ≤ ((["Team", "team"].map lowerStr).count (lowerStr x))))
    ∧ ConfigurationCore.find_almost_duplicate_items ["Team", "team"] ≠ [] :=
  (claim4_amended_every_member_reported ["Team", "team"]).2.1
    ⟨"Team", by simp, "team", by simp, by decide, rfl⟩

theorem get_ok_of_default_ne_null (config : Value) (path : String) (default : Value)
    (hd : default ≠ .null) : ∀ e, ConfigurationCore.get config path default ≠ .error e := by
  intro e
  unfold ConfigurationCore.get
  cases traverseTokens config (pathTokens path) with
  | some v => simp
  | none => cases default <;> simp_all

theorem get_group_config_not_knf (config : Value) (group : String) :
    ConfigurationCore.get_group_config config group ≠ .error .keyNotFound := by
  unfold ConfigurationCore.get_group_config
  cases ConfigurationCore.get config "projects_and_groups" with
  | error e => simp
  | ok v =>
    cases v <;> simp_all
    case map m =>
      cases ConfigurationCore.get_case_insensitively m (group ++ "/*") <;> simp

theorem get_project_config_not_knf (config : Value) (gp : String) :
    ConfigurationCore.get_project_config config gp ≠ .error .keyNotFound := by
  unfold ConfigurationCore.get_project_config
  cases ConfigurationCore.get config "projects_and_groups" with
  | error e => simp
  | ok v =>
    cases v <;> simp_all
    case map m =>
      cases ConfigurationCore.get_case_insensitively m gp <;> simp

theorem merge_configs_not_knf (g s : Value) :
    ConfigurationCore.merge_configs g s ≠ .error .keyNotFound := by
  unfold ConfigurationCore.merge_configs
  cases g <;> cases s <;> simp

theorem skippedLoop_not_knf (l : List Value) (item : List Char) :
    skippedLoop l item ≠ .error .keyNotFound := by
  induction l with
  | nil => simp [skippedLoop]
  | cons x rest ih =>
    cases x <;> simp [skippedLoop]
    case str s =>
      split
      · simp
      · split
        · simp
        · exact ih

theorem is_skipped_not_knf (arr : Value) (item : String) :
    ConfigurationCore.is_skipped_case_insensitively arr item ≠ .error .keyNotFound := by
  unfold ConfigurationCore.is_skipped_case_insensitively
  cases harr : pyIter arr with
  | error e =>
    simp only [Bind.bind, Except.bind]
    cases arr <;> simp [pyIter] at harr <;> simp [← harr]
  | ok l =>
    simpa [Bind.bind, Except.bind] using skippedLoop_not_knf l (lowerStr item).toList

theorem subgroupFold_not_knf (config : Value) :
    ∀ (segs : List String) (pre : String) (acc : Value),
      subgroupFold config segs pre acc ≠ .error .keyNotFound := by
  intro segs
  induction segs with
  | nil => intro pre acc; simp [subgroupFold]
  | cons seg rest ih =>
    intro pre acc
    unfold subgroupFold
    cases hg : ConfigurationCore.get_group_config config
        (if pre == "" then seg else pre ++ "/" ++ seg) with
    | error e =>
      intro hcon
      simp only [Bind.bind, Except.bind, hg] at hcon
      cases hcon
      exact get_group_config_not_knf config _ hg
    | ok lc =>
      simp only [Bind.bind, Except.bind, hg]
      cases hm : ConfigurationCore.merge_configs acc lc with
      | error e =>
        intro hcon
        cases hcon
        exact merge_configs_not_knf acc lc hm
      | ok acc2 => exact ih _ acc2

theorem effective_subgroup_config_not_knf (config : Value) (subgroup : String) :
    ConfigurationGroups.get_effective_subgroup_config config subgroup
      ≠ .error .keyNotFound :=
  subgroupFold_not_knf config _ "" (.map [])

/-- C5 amended: every Facade query method other than raw `get` and
`get_projects` never surfaces `KeyNotFound` — each internal caller that
tolerates absence passes a non-`None` default or catches the exception and
substitutes an empty tree or `false`; `get_projects` alone calls the
defaultless accessor unprotected and propagates `KeyNotFound` whenever
`projects_and_groups` is absent. -/
theorem claim5_amended_knf_conversion_except_get_projects :
    ∀ (config : Value) (g gp proj grp : String),
      ConfigurationCore.get_group_config config g ≠ .error .keyNotFound
      ∧ ConfigurationCore.get_project_config config gp ≠ .error .keyNotFound
      ∧ ConfigurationCore.is_project_skipped config proj ≠ .error .keyNotFound
      ∧ ConfigurationCore.is_group_skipped config grp ≠ .error .keyNotFound
      ∧ ConfigurationProjects.get_effective_config_for_project config gp
          ≠ .error .keyNotFound
      ∧ (traverseTokens config (pathTokens "projects_and_groups") = none →
          ConfigurationProjects.get_projects config = .error .keyNotFound) := by
  intro config g gp proj grp
  refine ⟨get_group_config_not_knf config g, get_project_config_not_knf config gp,
    ?_, ?_, ?_, ?_⟩
  · unfold ConfigurationCore.is_project_skipped
    cases hg : ConfigurationCore.get config "skip_projects" (.seq []) with
    | error e => exact absurd hg (get_ok_of_default_ne_null config _ _ (by simp) e)
    | ok arr => exact is_skipped_not_knf arr proj
  · unfold ConfigurationCore.is_group_skipped
    cases hg : ConfigurationCore.get config "skip_groups" (.seq []) with
    | error e => exact absurd hg (get_ok_of_default_ne_null config _ _ (by simp) e)
    | ok arr => exact is_skipped_not_knf arr grp
  · intro hcon
    unfold ConfigurationProjects.get_effective_config_for_project at hcon
    by_cases hs : containsSlash gp
    · rw [if_neg (by simp [hs])] at hcon
      simp only [Bind.bind, Except.bind] at hcon
      by_cases hb : containsSlash (rsplitSlash1 gp).1
      · rw [if_pos hb] at hcon
        cases hgc : ConfigurationGroups.get_effective_subgroup_config config
            (rsplitSlash1 gp).1 with
        | error e =>
          rw [hgc] at hcon
          simp only [Except.error.injEq] at hcon
          subst hcon
          exact effective_subgroup_config_not_knf config _ hgc
        | ok gl =>
          rw [hgc] at hcon
          cases hpc : ConfigurationCore.get_project_config config gp with
          | error e =>
            rw [hpc] at hcon
            simp only [Except.error.injEq] at hcon
            subst hcon
            exact get_project_config_not_knf config gp hpc
          | ok pl =>
            rw [hpc] at hcon
            dsimp only at hcon
            cases hm1 : ConfigurationCore.merge_configs
                (ConfigurationCore.get_common_config config) gl with
            | error e =>
              rw [hm1] at hcon
              simp only [Except.error.injEq] at hcon
              subst hcon
              exact merge_configs_not_knf _ gl hm1
            | ok cag =>
              rw [hm1] at hcon
              exact merge_configs_not_knf cag pl hcon
      · rw [if_neg hb] at hcon
        cases hgc : ConfigurationCore.get_group_config config (rsplitSlash1 gp).1 with
        | error e =>
          rw [hgc] at hcon
          simp only [Except.error.injEq] at hcon
          subst hcon
          exact get_group_config_not_knf config _ hgc
        | ok gl =>
          rw [hgc] at hcon
          cases hpc : ConfigurationCore.get_project_config config gp with
          | error e =>
            rw [hpc] at hcon
            simp only [Except.error.injEq] at hcon
            subst hcon
            exact get_project_config_not_knf config gp hpc
          | ok pl =>
            rw [hpc] at hcon
            dsimp only at hcon
            cases hm1 : ConfigurationCore.merge_configs
                (ConfigurationCore.get_common_config config) gl with
            | error e =>
              rw [hm1] at hcon
              simp only [Except.error.injEq] at hcon
              subst hcon
              exact merge_configs_not_knf _ gl hm1
            | ok cag =>
              rw [hm1] at hcon
              exact merge_configs_not_knf cag pl hcon
    · rw [if_pos (by simp [Bool.not_eq_true] at hs; simp [hs])] at hcon
      exact absurd hcon (by simp)
  · intro h
    unfold ConfigurationProjects.get_projects ConfigurationCore.get
    rw [h]

/-- C5 amended witness: on the empty tree every listed method completes
without `KeyNotFound` while `get_projects` raises it. -/
theorem claim5_amended_knf_conversion_except_get_projects_witness :
    ConfigurationCore.get_group_config (.map []) "team" ≠ .error .keyNotFound
    ∧ ConfigurationProjects.get_projects (.map []) = .error .keyNotFound :=
  ⟨(claim5_amended_knf_conversion_except_get_projects (.map []) "team" "team/proj"
      "p" "g").1,
   (claim5_amended_knf_conversion_except_get_projects (.map []) "team" "team/proj"
      "p" "g").2.2.2.2.2 rfl⟩
